import Mathlib

/-! Verification of the ephemeral call system in `frontend/app.py`.

The room registry (`EphemeralCallSystem`) keeps a Python dict
`active_rooms : Dict[str, Dict]` mapping room identifiers to room records.
We embed a Python dict as an association list with unique keys: assignment
replaces the value in place when the key is present and appends otherwise
(preserving insertion order, as CPython dicts do), `del` removes the entry,
and membership/lookup find the entry by key.

Nondeterministic inputs of the Python code — `secrets.token_urlsafe`
results and `time.time()` readings — are passed to each embedded operation
as explicit parameters.
-/

namespace PrivacyCalls

/-- Lookup by key in a Python-dict association list (`d[k]` / `k in d`). -/
def dictLookup {α : Type} (k : String) : List (String × α) → Option α
  | [] => none
  | (k', v') :: rest => if k' = k then some v' else dictLookup k rest

/-- Assignment `d[k] = v` on a Python dict: replace in place if the key is
present, append otherwise. -/
def dictInsert {α : Type} (k : String) (v : α) : List (String × α) → List (String × α)
  | [] => [(k, v)]
  | (k', v') :: rest => if k' = k then (k, v) :: rest else (k', v') :: dictInsert k v rest

/-- Deletion `del d[k]` on a Python dict (no-op when the key is absent). -/
def dictErase {α : Type} (k : String) : List (String × α) → List (String × α)
  | [] => []
  | (k', v') :: rest => if k' = k then rest else (k', v') :: dictErase k rest

/-- A room record, as built by `EphemeralCallSystem.create_room`. -/
structure Room where
  creator : String
  participants : List String
  pending_approvals : List String
  user_names : List (String × String)
  created_at : Int
  last_activity : Int
  call_ended : Bool
deriving DecidableEq

/-- The `active_rooms` table. -/
abbrev Registry := List (String × Room)

/-- Embeds `EphemeralCallSystem.create_room`. The generated `room_id`, `user_id`
and the clock reading `now` are explicit parameters. -/
def create_room (st : Registry) (user_name room_id user_id : String) (now : Int) :
    (String × String × String) × Registry :=
  let room : Room :=
    { creator := user_id
      participants := [user_id]
      pending_approvals := []
      user_names := [(user_id, user_name)]
      created_at := now
      last_activity := now
      call_ended := false }
  ((room_id, user_id, "Room created! Share this ID: " ++ room_id), dictInsert room_id room st)

/-- Embeds `EphemeralCallSystem.request_join`. Returns the Python triple
`(user_id, room_id, message)` (with `None` as `none`) and the updated table. -/
def request_join (st : Registry) (room_id user_name user_id : String) (now : Int) :
    (Option String × Option String × String) × Registry :=
  match dictLookup room_id st with
  | none => ((none, none, "Room not found or expired"), st)
  | some room =>
    if room.call_ended then
      ((none, none, "Call has ended permanently"), st)
    else if 10 ≤ room.participants.length then
      ((none, none, "Room is full"), st)
    else
      let room' := { room with
        participants := room.participants ++ [user_id]
        user_names := dictInsert user_id user_name room.user_names
        last_activity := now }
      ((some user_id, some room_id, "Joined room " ++ room_id), dictInsert room_id room' st)

/-- Embeds `EphemeralCallSystem.end_call_permanently`. -/
def end_call_permanently (st : Registry) (room_id : String) : Registry :=
  match dictLookup room_id st with
  | none => st
  | some room => dictInsert room_id { room with call_ended := true } st

/-- Embeds `EphemeralCallSystem.can_start_call`. -/
def can_start_call (st : Registry) (room_id : String) : Bool :=
  match dictLookup room_id st with
  | none => false
  | some room => !room.call_ended

/-- Embeds `EphemeralCallSystem.get_status`. The Python method may receive a falsy
`room_id` (empty string / `None` from the UI state); we model the falsy check
`not room_id` as equality with `""`. The method only reads `self.active_rooms`;
we return the table it leaves behind to make that a provable statement. -/
def get_status (st : Registry) (room_id : String) : String × Registry :=
  if room_id = "" then ("Room not found", st)
  else
    match dictLookup room_id st with
    | none => ("Room not found", st)
    | some room =>
      if room.call_ended then ("❌ Call has ended permanently", st)
      else
        let status := "🟢 Room Active | 👥 Participants: " ++ toString room.participants.length
        if room.user_names.isEmpty then (status, st)
        else
          (status ++ "\n📋 Participants: " ++
            String.intercalate ", " (room.user_names.map Prod.snd), st)

/-- Embeds `EphemeralCallSystem.cleanup_room`. -/
def cleanup_room (st : Registry) (room_id : String) : Registry :=
  dictErase room_id st

/-- One iteration of the body of `EphemeralCallSystem.periodic_cleanup`,
run with clock reading `now`: collect the identifiers of rooms with
`now - last_activity > 1800` from a snapshot of the table, then remove each. -/
def periodic_cleanup_pass (st : Registry) (now : Int) : Registry :=
  let stale_rooms := (st.filter fun p => 1800 < now - p.2.last_activity).map Prod.fst
  stale_rooms.foldl cleanup_room st

/-- Embeds `EphemeralCallSystem.emergency_cleanup` (`self.active_rooms.clear()`). -/
def emergency_cleanup (_st : Registry) : Registry := []

/-- Python's `str.strip()`: drop leading and trailing whitespace. -/
def pyStrip (s : String) : String :=
  String.mk (((s.data.dropWhile Char.isWhitespace).reverse.dropWhile
    Char.isWhitespace).reverse)

/-- Embeds `create_room_interface` from the presentation layer: rejects a name that
is falsy after `strip()` without touching the registry, otherwise forwards
the stripped name to `create_room` (success ids wrapped in `some`). -/
def create_room_interface (st : Registry) (user_name room_id user_id : String) (now : Int) :
    (Option String × Option String × String) × Registry :=
  if pyStrip user_name = "" then ((none, none, "Please enter your name"), st)
  else
    let r := create_room st (pyStrip user_name) room_id user_id now
    ((some r.1.1, some r.1.2.1, r.1.2.2), r.2)

/-- A video frame delivered by the media transport: an `np.ndarray` of shape
`(dim0, dim1, dim2)` with a dtype tag and an entry function. -/
structure NdArray3 where
  dim0 : Nat
  dim1 : Nat
  dim2 : Nat
  dtype : String
  entry : Nat → Nat → Nat → Int

/-- Embeds `np.zeros((d0, d1, d2), dtype)`. -/
def np_zeros3 (d0 d1 d2 : Nat) (dtype : String) : NdArray3 :=
  { dim0 := d0, dim1 := d1, dim2 := d2, dtype := dtype, entry := fun _ _ _ => 0 }

/-- A 2-dimensional sample array for the audio path. -/
structure NdArray2 where
  dim0 : Nat
  dim1 : Nat
  dtype : String
  entry : Nat → Nat → Int

/-- Embeds `np.zeros((d0, d1), dtype)`. -/
def np_zeros2 (d0 d1 : Nat) (dtype : String) : NdArray2 :=
  { dim0 := d0, dim1 := d1, dtype := dtype, entry := fun _ _ => 0 }

/-- Embeds `CallHandler.video_handler`; `self.video_enabled` is passed explicitly. -/
def video_handler (video_enabled : Bool) (frame : Option NdArray3) : Option NdArray3 :=
  match frame with
  | some f => if video_enabled then some f else some (np_zeros3 480 640 3 "uint8")
  | none => some (np_zeros3 480 640 3 "uint8")

/-- Embeds `CallHandler.audio_handler`; `self.audio_enabled` is passed explicitly. -/
def audio_handler (audio_enabled : Bool) (aud : Option (Nat × NdArray2)) :
    Option (Nat × NdArray2) :=
  match aud with
  | some a => if audio_enabled then some a else some (16000, np_zeros2 1 1600 "int16")
  | none => some (16000, np_zeros2 1 1600 "int16")

/-- Embeds `CallHandler.toggle_video`. -/
def toggle_video (video_enabled : Bool) : Bool := !video_enabled

/-- Embeds `CallHandler.toggle_audio`. -/
def toggle_audio (audio_enabled : Bool) : Bool := !audio_enabled

/-- One registry operation, with its nondeterministic inputs (fresh tokens,
clock readings) recorded as arguments. -/
inductive Op where
  | create (user_name room_id user_id : String) (now : Int)
  | join (room_id user_name user_id : String) (now : Int)
  | endCall (room_id : String)
  | status (room_id : String)
  | canStart (room_id : String)
  | cleanup (room_id : String)
  | sweep (now : Int)
  | clear

/-- The registry state left behind by one operation. -/
def apply_op (st : Registry) : Op → Registry
  | .create user_name room_id user_id now => (create_room st user_name room_id user_id now).2
  | .join room_id user_name user_id now => (request_join st room_id user_name user_id now).2
  | .endCall room_id => end_call_permanently st room_id
  | .status room_id => (get_status st room_id).2
  | .canStart _ => st
  | .cleanup room_id => cleanup_room st room_id
  | .sweep now => periodic_cleanup_pass st now
  | .clear => emergency_cleanup st

/-- The registry reached from the empty initial table (`__init__`) by a
sequence of operations. -/
def run (ops : List Op) : Registry :=
  ops.foldl apply_op []

/-- The keys of the table are pairwise distinct (true of any Python dict). -/
def keysNodup {α : Type} (m : List (String × α)) : Prop :=
  (m.map Prod.fst).Nodup

/-- Per-room invariant: at most 10 participants, and the keys of
`user_names` are exactly the participant set. -/
def roomInv (room : Room) : Prop :=
  room.participants.length ≤ 10 ∧
  ∀ u, (dictLookup u room.user_names).isSome ↔ u ∈ room.participants

/-- An operation's create step uses a room identifier not already in the
table (what `secrets.token_urlsafe(16)` delivers in practice). -/
def freshCreate (st : Registry) : Op → Prop
  | .create _ room_id _ _ => dictLookup room_id st = none
  | _ => True

/-- Monotonicity of `call_ended` across one step: a room that is ended and
survives the step is still ended. -/
def endedMono (st st' : Registry) : Prop :=
  ∀ room_id room room', dictLookup room_id st = some room →
    dictLookup room_id st' = some room' →
    room.call_ended = true → room'.call_ended = true

lemma dictLookup_dictInsert {α : Type} (k a : String) (v : α) (m : List (String × α)) :
    dictLookup a (dictInsert k v m) = if a = k then some v else dictLookup a m := by
  induction m with
  | nil =>
    by_cases h : a = k
    · subst h; simp [dictInsert, dictLookup]
    · have h' : ¬(k = a) := fun hh => h hh.symm
      simp [dictInsert, dictLookup, h, h']
  | cons p rest ih =>
    obtain ⟨k', v'⟩ := p
    by_cases hk : k' = k
    · subst hk
      simp only [dictInsert, if_pos rfl]
      by_cases h : a = k'
      · subst h; simp [dictLookup]
      · have h' : ¬(k' = a) := fun hh => h hh.symm
        simp [dictLookup, h, h']
    · simp only [dictInsert, if_neg hk]
      by_cases h : k' = a
      · subst h
        have h' : ¬(k' = k) := hk
        simp [dictLookup, h']
      · simp [dictLookup, h, ih]

lemma dictInsert_lookup_self {α : Type} {k : String} {v : α} {m : List (String × α)}
    (h : dictLookup k m = some v) : dictInsert k v m = m := by
  induction m with
  | nil => simp [dictLookup] at h
  | cons p rest ih =>
    obtain ⟨k', v'⟩ := p
    simp only [dictLookup] at h
    simp only [dictInsert]
    by_cases hk : k' = k
    · subst hk
      rw [if_pos rfl] at h ⊢
      obtain rfl : v' = v := by injection h
      rfl
    · rw [if_neg hk] at h ⊢
      rw [ih h]

lemma dictLookup_eq_none_of_not_mem {α : Type} {a : String} {m : List (String × α)}
    (h : a ∉ m.map Prod.fst) : dictLookup a m = none := by
  induction m with
  | nil => rfl
  | cons p rest ih =>
    obtain ⟨k', v'⟩ := p
    simp only [List.map_cons, List.mem_cons, not_or] at h
    simp only [dictLookup]
    rw [if_neg (fun hh => h.1 hh.symm)]
    exact ih h.2

lemma dictLookup_some_mem {α : Type} {a : String} {v : α} {m : List (String × α)}
    (h : dictLookup a m = some v) : (a, v) ∈ m := by
  induction m with
  | nil => simp [dictLookup] at h
  | cons p rest ih =>
    obtain ⟨k', v'⟩ := p
    simp only [dictLookup] at h
    by_cases hk : k' = a
    · subst hk
      rw [if_pos rfl] at h
      obtain rfl : v' = v := by injection h
      exact List.mem_cons_self _ _
    · rw [if_neg hk] at h
      exact List.mem_cons_of_mem _ (ih h)

lemma mem_dictLookup {α : Type} {a : String} {v : α} {m : List (String × α)}
    (hnd : keysNodup m) (hmem : (a, v) ∈ m) : dictLookup a m = some v := by
  induction m with
  | nil => simp at hmem
  | cons p rest ih =>
    obtain ⟨k', v'⟩ := p
    simp only [keysNodup, List.map_cons, List.nodup_cons] at hnd
    rcases List.mem_cons.mp hmem with h | h
    · obtain ⟨rfl, rfl⟩ := Prod.mk.injEq .. ▸ h
      · simp [dictLookup]
    · have hk : k' ≠ a := by
        rintro rfl
        exact hnd.1 (List.mem_map.mpr ⟨(k', v), h, rfl⟩)
      simp only [dictLookup, if_neg hk]
      exact ih hnd.2 h

lemma mem_keys_dictInsert {α : Type} {k a : String} {v : α} {m : List (String × α)}
    (h : a ∈ (dictInsert k v m).map Prod.fst) : a = k ∨ a ∈ m.map Prod.fst := by
  induction m with
  | nil => simpa [dictInsert] using h
  | cons p rest ih =>
    obtain ⟨k', v'⟩ := p
    by_cases hk : k' = k
    · subst hk
      rw [dictInsert, if_pos rfl] at h
      simp only [List.map_cons, List.mem_cons] at h ⊢
      tauto
    · simp only [dictInsert, if_neg hk, List.map_cons, List.mem_cons] at h ⊢
      rcases h with h | h
      · tauto
      · rcases ih h with h' | h' <;> tauto

lemma keysNodup_dictInsert {α : Type} {k : String} {v : α} {m : List (String × α)}
    (h : keysNodup m) : keysNodup (dictInsert k v m) := by
  induction m with
  | nil => simp [keysNodup, dictInsert]
  | cons p rest ih =>
    obtain ⟨k', v'⟩ := p
    simp only [keysNodup, List.map_cons, List.nodup_cons] at h
    by_cases hk : k' = k
    · subst hk
      rw [keysNodup, dictInsert, if_pos rfl]
      simp only [List.map_cons, List.nodup_cons]
      exact h
    · simp only [keysNodup, dictInsert, if_neg hk, List.map_cons, List.nodup_cons]
      refine ⟨fun hmem => ?_, ih h.2⟩
      rcases mem_keys_dictInsert hmem with h' | h'
      · exact hk h'
      · exact h.1 h'

lemma mem_keys_dictErase {α : Type} {k a : String} {m : List (String × α)}
    (h : a ∈ (dictErase k m).map Prod.fst) : a ∈ m.map Prod.fst := by
  induction m with
  | nil => simp [dictErase] at h
  | cons p rest ih =>
    obtain ⟨k', v'⟩ := p
    by_cases hk : k' = k
    · subst hk
      simp only [dictErase, if_pos rfl] at h
      simp only [List.map_cons, List.mem_cons]
      tauto
    · simp only [dictErase, if_neg hk, List.map_cons, List.mem_cons] at h ⊢
      rcases h with h | h
      · tauto
      · exact Or.inr (ih h)

lemma keysNodup_dictErase {α : Type} {k : String} {m : List (String × α)}
    (h : keysNodup m) : keysNodup (dictErase k m) := by
  induction m with
  | nil => simp [keysNodup, dictErase]
  | cons p rest ih =>
    obtain ⟨k', v'⟩ := p
    simp only [keysNodup, List.map_cons, List.nodup_cons] at h
    by_cases hk : k' = k
    · subst hk
      simp only [dictErase, if_pos rfl]
      exact h.2
    · simp only [keysNodup, dictErase, if_neg hk, List.map_cons, List.nodup_cons]
      exact ⟨fun hmem => h.1 (mem_keys_dictErase hmem), ih h.2⟩

lemma dictLookup_dictErase {α : Type} {k a : String} {m : List (String × α)}
    (hnd : keysNodup m) :
    dictLookup a (dictErase k m) = if a = k then none else dictLookup a m := by
  induction m with
  | nil => by_cases h : a = k <;> simp [dictErase, dictLookup, h]
  | cons p rest ih =>
    obtain ⟨k', v'⟩ := p
    simp only [keysNodup, List.map_cons, List.nodup_cons] at hnd
    by_cases hk : k' = k
    · subst hk
      simp only [dictErase, if_pos rfl]
      by_cases h : a = k'
      · subst h
        rw [if_pos rfl]
        exact dictLookup_eq_none_of_not_mem hnd.1
      · have h' : ¬(k' = a) := fun hh => h hh.symm
        simp [dictLookup, h, h']
    · simp only [dictErase, if_neg hk]
      by_cases h : k' = a
      · subst h
        have h' : ¬(k' = k) := hk
        simp [dictLookup, h']
      · simp only [dictLookup, if_neg h]
        rw [ih hnd.2]

lemma lookup_foldl_cleanup {a : String} (l : List String) (st : Registry)
    (hnd : keysNodup st) :
    dictLookup a (l.foldl cleanup_room st) =
      if a ∈ l then none else dictLookup a st := by
  induction l generalizing st with
  | nil => simp
  | cons k l' ih =>
    simp only [List.foldl_cons]
    rw [ih (cleanup_room st k) (keysNodup_dictErase hnd)]
    simp only [cleanup_room]
    rw [dictLookup_dictErase hnd]
    by_cases h1 : a ∈ l' <;> by_cases h2 : a = k <;>
      simp [h1, h2, List.mem_cons]

lemma keysNodup_foldl_cleanup (l : List String) (st : Registry)
    (hnd : keysNodup st) : keysNodup (l.foldl cleanup_room st) := by
  induction l generalizing st with
  | nil => simpa using hnd
  | cons k l' ih =>
    simp only [List.foldl_cons]
    exact ih _ (keysNodup_dictErase hnd)

lemma dictLookup_inj {α : Type} {a : String} {m : List (String × α)} {x y : α}
    (h1 : dictLookup a m = some x) (h2 : dictLookup a m = some y) : x = y := by
  rw [h1] at h2
  injection h2

/-- The registry is a well-formed dict and every stored room satisfies the
per-room invariant. -/
def goodState (st : Registry) : Prop :=
  keysNodup st ∧ ∀ room_id room, dictLookup room_id st = some room → roomInv room

lemma goodState_nil : goodState [] := by
  refine ⟨by simp [keysNodup], ?_⟩
  intro a r h
  simp [dictLookup] at h

lemma goodState_dictInsert {st : Registry} {rid : String} {room : Room}
    (h : goodState st) (hr : roomInv room) : goodState (dictInsert rid room st) := by
  refine ⟨keysNodup_dictInsert h.1, ?_⟩
  intro a r hl
  rw [dictLookup_dictInsert] at hl
  by_cases ha : a = rid
  · rw [if_pos ha] at hl
    obtain rfl : room = r := by injection hl
    exact hr
  · rw [if_neg ha] at hl
    exact h.2 a r hl

lemma get_status_snd (st : Registry) (rid : String) : (get_status st rid).2 = st := by
  unfold get_status
  by_cases h : rid = ""
  · simp [h]
  · rw [if_neg h]
    cases hc : dictLookup rid st with
    | none => rfl
    | some room =>
      simp only
      split_ifs <;> rfl

lemma goodState_apply_op {st : Registry} (h : goodState st) (op : Op) :
    goodState (apply_op st op) := by
  obtain ⟨hnd, hinv⟩ := h
  cases op with
  | create uname rid uid now =>
    simp only [apply_op, create_room]
    refine goodState_dictInsert ⟨hnd, hinv⟩ ⟨by simp, ?_⟩
    intro u
    by_cases hu : uid = u
    · subst hu
      simp [dictLookup]
    · refine iff_of_false ?_ ?_
      · simp [dictLookup, hu]
      · simp only [List.mem_singleton]
        exact fun hh => hu hh.symm
  | join rid uname uid now =>
    simp only [apply_op, request_join]
    cases hc : dictLookup rid st with
    | none => exact ⟨hnd, hinv⟩
    | some room =>
      simp only
      split_ifs with h1 h2
      · exact ⟨hnd, hinv⟩
      · exact ⟨hnd, hinv⟩
      · have hr := hinv rid room hc
        refine goodState_dictInsert ⟨hnd, hinv⟩ ⟨?_, ?_⟩
        · simp only [List.length_append, List.length_singleton]
          omega
        · intro u
          rw [dictLookup_dictInsert]
          by_cases hu : u = uid
          · subst hu
            simp
          · rw [if_neg hu]
            simp only [List.mem_append, List.mem_singleton, hu, or_false]
            exact hr.2 u
  | endCall rid =>
    simp only [apply_op, end_call_permanently]
    cases hc : dictLookup rid st with
    | none => exact ⟨hnd, hinv⟩
    | some room =>
      simp only
      exact goodState_dictInsert ⟨hnd, hinv⟩ (hinv rid room hc)
  | status rid =>
    rw [apply_op, get_status_snd]
    exact ⟨hnd, hinv⟩
  | canStart rid => exact ⟨hnd, hinv⟩
  | cleanup rid =>
    refine ⟨keysNodup_dictErase hnd, ?_⟩
    intro a r hl
    simp only [apply_op, cleanup_room] at hl
    rw [dictLookup_dictErase hnd] at hl
    by_cases ha : a = rid
    · rw [if_pos ha] at hl
      cases hl
    · rw [if_neg ha] at hl
      exact hinv a r hl
  | sweep now =>
    simp only [apply_op, periodic_cleanup_pass]
    refine ⟨keysNodup_foldl_cleanup _ _ hnd, ?_⟩
    intro a r hl
    rw [lookup_foldl_cleanup _ _ hnd] at hl
    by_cases ha : a ∈ (st.filter fun p => 1800 < now - p.2.last_activity).map Prod.fst
    · rw [if_pos ha] at hl
      cases hl
    · rw [if_neg ha] at hl
      exact hinv a r hl
  | clear =>
    simp only [apply_op, emergency_cleanup]
    exact goodState_nil

lemma goodState_run (ops : List Op) : goodState (run ops) := by
  suffices h : ∀ st, goodState st → goodState (ops.foldl apply_op st) from
    h [] goodState_nil
  induction ops with
  | nil => intro st h; simpa using h
  | cons op ops ih =>
    intro st h
    simp only [List.foldl_cons]
    exact ih _ (goodState_apply_op h op)

lemma endedMono_refl (st : Registry) : endedMono st st := by
  intro rid room room' hl hl' hend
  obtain rfl : room = room' := dictLookup_inj hl hl'
  exact hend

lemma endedMono_apply_op {st : Registry} (hnd : keysNodup st) (op : Op)
    (hf : freshCreate st op) : endedMono st (apply_op st op) := by
  intro rid room room' hl hl' hend
  cases op with
  | create uname rid0 uid now =>
    simp only [freshCreate] at hf
    simp only [apply_op, create_room] at hl'
    rw [dictLookup_dictInsert] at hl'
    by_cases h : rid = rid0
    · subst h
      exact Option.noConfusion (hf.symm.trans hl)
    · rw [if_neg h] at hl'
      obtain rfl : room = room' := dictLookup_inj hl hl'
      exact hend
  | join rid0 uname uid now =>
    simp only [apply_op, request_join] at hl'
    cases hc : dictLookup rid0 st with
    | none =>
      rw [hc] at hl'
      obtain rfl : room = room' := dictLookup_inj hl hl'
      exact hend
    | some room0 =>
      rw [hc] at hl'
      simp only at hl'
      split_ifs at hl' with h1 h2
      · obtain rfl : room = room' := dictLookup_inj hl hl'
        exact hend
      · obtain rfl : room = room' := dictLookup_inj hl hl'
        exact hend
      · rw [dictLookup_dictInsert] at hl'
        by_cases h : rid = rid0
        · subst h
          obtain rfl : room = room0 := by
            rw [hl] at hc
            injection hc
          exact absurd hend h1
        · rw [if_neg h] at hl'
          obtain rfl : room = room' := dictLookup_inj hl hl'
          exact hend
  | endCall rid0 =>
    simp only [apply_op, end_call_permanently] at hl'
    cases hc : dictLookup rid0 st with
    | none =>
      rw [hc] at hl'
      obtain rfl : room = room' := dictLookup_inj hl hl'
      exact hend
    | some room0 =>
      rw [hc] at hl'
      simp only at hl'
      rw [dictLookup_dictInsert] at hl'
      by_cases h : rid = rid0
      · rw [if_pos h] at hl'
        obtain rfl : { room0 with call_ended := true } = room' := by injection hl'
        rfl
      · rw [if_neg h] at hl'
        obtain rfl : room = room' := dictLookup_inj hl hl'
        exact hend
  | status rid0 =>
    rw [apply_op, get_status_snd] at hl'
    obtain rfl : room = room' := dictLookup_inj hl hl'
    exact hend
  | canStart rid0 =>
    simp only [apply_op] at hl'
    obtain rfl : room = room' := dictLookup_inj hl hl'
    exact hend
  | cleanup rid0 =>
    simp only [apply_op, cleanup_room] at hl'
    rw [dictLookup_dictErase hnd] at hl'
    by_cases h : rid = rid0
    · rw [if_pos h] at hl'
      cases hl'
    · rw [if_neg h] at hl'
      obtain rfl : room = room' := dictLookup_inj hl hl'
      exact hend
  | sweep now =>
    simp only [apply_op, periodic_cleanup_pass] at hl'
    rw [lookup_foldl_cleanup _ _ hnd] at hl'
    by_cases h : rid ∈ (st.filter fun p => 1800 < now - p.2.last_activity).map Prod.fst
    · rw [if_pos h] at hl'
      cases hl'
    · rw [if_neg h] at hl'
      obtain rfl : room = room' := dictLookup_inj hl hl'
      exact hend
  | clear =>
    simp only [apply_op, emergency_cleanup, dictLookup] at hl'
    cases hl'

lemma mem_stale_iff {st : Registry} {now : Int} {rid : String} {room : Room}
    (hnd : keysNodup st) (hl : dictLookup rid st = some room) :
    rid ∈ (st.filter fun p => 1800 < now - p.2.last_activity).map Prod.fst ↔
      1800 < now - room.last_activity := by
  constructor
  · intro h
    obtain ⟨p, hp, hfst⟩ := List.mem_map.mp h
    obtain ⟨hpm, hpred⟩ := List.mem_filter.mp hp
    have hlp : dictLookup rid st = some p.2 := by
      refine mem_dictLookup hnd ?_
      rw [← hfst]
      exact Prod.mk.eta ▸ hpm
    obtain rfl : p.2 = room := dictLookup_inj hlp hl
    exact of_decide_eq_true hpred
  · intro h
    refine List.mem_map.mpr ⟨(rid, room), List.mem_filter.mpr ⟨dictLookup_some_mem hl, ?_⟩, rfl⟩
    simpa using h

lemma mem_keys_dictLookup {α : Type} {a : String} {m : List (String × α)}
    (h : a ∈ m.map Prod.fst) : ∃ v, dictLookup a m = some v := by
  induction m with
  | nil => simp at h
  | cons p rest ih =>
    obtain ⟨k', v'⟩ := p
    by_cases hk : k' = a
    · exact ⟨v', by simp [dictLookup, hk]⟩
    · simp only [List.map_cons, List.mem_cons] at h
      rcases h with h | h
      · exact absurd h.symm hk
      · simpa [dictLookup, hk] using ih h

/-- One pass of the background sweep removes exactly the rooms whose last
activity is more than 1800 seconds before `now` (regardless of `call_ended`),
leaves every other room untouched, and adds nothing. -/
lemma periodic_cleanup_pass_lookup (st : Registry) (now : Int) (hnd : keysNodup st) :
    (∀ rid room, dictLookup rid st = some room →
      dictLookup rid (periodic_cleanup_pass st now) =
        (if 1800 < now - room.last_activity then none else some room)) ∧
    ∀ rid, dictLookup rid st = none →
      dictLookup rid (periodic_cleanup_pass st now) = none := by
  constructor
  · intro rid room hl
    simp only [periodic_cleanup_pass]
    rw [lookup_foldl_cleanup _ _ hnd]
    by_cases h : 1800 < now - room.last_activity
    · rw [if_pos ((mem_stale_iff hnd hl).mpr h), if_pos h]
    · rw [if_neg (fun hm => h ((mem_stale_iff hnd hl).mp hm)), if_neg h, hl]
  · intro rid hl
    simp only [periodic_cleanup_pass]
    rw [lookup_foldl_cleanup _ _ hnd]
    split_ifs with h
    · rfl
    · exact hl

/-- A one-room sample registry: the result of `create_room` on the empty
table with display name `Alice`, room id `r`, user id `u`, at time 0. -/
def reg1 : Registry := (create_room [] "Alice" "r" "u" 0).2

/-- The room record stored in `reg1`. -/
def roomAlice : Room :=
  { creator := "u", participants := ["u"], pending_approvals := [],
    user_names := [("u", "Alice")], created_at := 0, last_activity := 0,
    call_ended := false }

/-- C5: one pass of the background sweep, run at time `now`, removes from the
registry exactly those rooms whose `last_activity` is more than 1800 seconds
before `now` (independently of their `call_ended` flag), and leaves every
room within the 1800-second window entirely unaffected. -/
theorem C5_sweep_removes_exactly_stale (st : Registry) (now : Int) (hnd : keysNodup st) :
    (∀ rid room, dictLookup rid st = some room →
      dictLookup rid (periodic_cleanup_pass st now) =
        (if 1800 < now - room.last_activity then none else some room)) ∧
    ∀ rid, dictLookup rid st = none →
      dictLookup rid (periodic_cleanup_pass st now) = none :=
  periodic_cleanup_pass_lookup st now hnd

/-- Witness for C5: in the one-room registry `reg1` (last activity 0), a
sweep at time 2000 removes room `r`, while a sweep at time 1000 leaves it
untouched. -/
theorem C5_sweep_witness :
    dictLookup "r" (periodic_cleanup_pass reg1 2000) = none ∧
    dictLookup "r" (periodic_cleanup_pass reg1 1000) = some roomAlice := by
  have hnd : keysNodup reg1 := by
    show (reg1.map Prod.fst).Nodup
    decide
  have h2 := (C5_sweep_removes_exactly_stale reg1 2000 hnd).1 "r" roomAlice (by decide)
  have h1 := (C5_sweep_removes_exactly_stale reg1 1000 hnd).1 "r" roomAlice (by decide)
  refine ⟨?_, ?_⟩
  · rw [h2]
    decide
  · rw [h1]
    decide

/-- C6: in every registry state reachable by any sequence of operations,
every room has at most 10 participants and the keys of its `user_names`
dict are exactly its participant set; moreover, from any reachable state,
any step whose room-id token is fresh never resets a `call_ended` flag from
true back to false. -/
theorem C6_reachable_invariants (ops : List Op) :
    (∀ p ∈ run ops, p.2.participants.length ≤ 10 ∧
      ∀ u, (dictLookup u p.2.user_names).isSome ↔ u ∈ p.2.participants) ∧
    ∀ op, freshCreate (run ops) op → endedMono (run ops) (apply_op (run ops) op) := by
  have hg := goodState_run ops
  constructor
  · intro p hp
    exact hg.2 p.1 p.2 (mem_dictLookup hg.1 (Prod.mk.eta ▸ hp))
  · intro op hf
    exact endedMono_apply_op hg.1 op hf

/-- Witness for C6 at a concrete trace: create the room of `reg1`, then
step with a fresh create. -/
theorem C6_reachable_invariants_witness :
    (∀ p ∈ run [Op.create "Alice" "r" "u" 0], p.2.participants.length ≤ 10 ∧
      ∀ u, (dictLookup u p.2.user_names).isSome ↔ u ∈ p.2.participants) ∧
    endedMono (run [Op.create "Alice" "r" "u" 0])
      (apply_op (run [Op.create "Alice" "r" "u" 0]) (Op.create "Bob" "r2" "u2" 5)) := by
  have h := C6_reachable_invariants [Op.create "Alice" "r" "u" 0]
  have hf : freshCreate (run [Op.create "Alice" "r" "u" 0]) (Op.create "Bob" "r2" "u2" 5) := by
    show dictLookup "r2" (run [Op.create "Alice" "r" "u" 0]) = none
    decide
  exact ⟨h.1, h.2 (Op.create "Bob" "r2" "u2" 5) hf⟩

/-- C3: joining an existing, live, non-full room appends exactly one new
participant at the end of the list, records the display name, bumps
`last_activity`, returns the confirmation triple, and raises the count by
exactly 1; a room that already has 10 participants answers `Room is full`
and keeps its count at 10. -/
theorem C3_request_join_capacity (st : Registry) (rid uname uid : String) (now : Int)
    (room : Room) (hfound : dictLookup rid st = some room)
    (hended : room.call_ended = false) :
    (room.participants.length < 10 →
      (request_join st rid uname uid now).1 = (some uid, some rid, "Joined room " ++ rid) ∧
      ∃ room', dictLookup rid (request_join st rid uname uid now).2 = some room' ∧
        room'.participants = room.participants ++ [uid] ∧
        dictLookup uid room'.user_names = some uname ∧
        room'.last_activity = now ∧
        room'.participants.length = room.participants.length + 1) ∧
    (room.participants.length = 10 →
      (request_join st rid uname uid now).1 = (none, none, "Room is full") ∧
      (request_join st rid uname uid now).2 = st ∧
      ∀ room', dictLookup rid (request_join st rid uname uid now).2 = some room' →
        room'.participants.length = 10) := by
  constructor
  · intro hlt
    have hnot : ¬ 10 ≤ room.participants.length := by omega
    simp only [request_join, hfound]
    rw [if_neg (by simp [hended]), if_neg hnot]
    refine ⟨rfl, ⟨{ room with
        participants := room.participants ++ [uid],
        user_names := dictInsert uid uname room.user_names,
        last_activity := now }, ?_, rfl, ?_, rfl, by simp⟩⟩
    · rw [dictLookup_dictInsert, if_pos rfl]
    · rw [dictLookup_dictInsert, if_pos rfl]
  · intro heq
    have hge : 10 ≤ room.participants.length := by omega
    simp only [request_join, hfound]
    rw [if_neg (by simp [hended]), if_pos hge]
    refine ⟨rfl, rfl, ?_⟩
    intro room' hl'
    obtain rfl : room = room' := dictLookup_inj hfound hl'
    exact heq

/-- A full room: 10 participants, not ended. -/
def roomFull : Room :=
  { creator := "p0"
    participants := ["p0", "p1", "p2", "p3", "p4", "p5", "p6", "p7", "p8", "p9"]
    pending_approvals := []
    user_names := [("p0", "P0"), ("p1", "P1"), ("p2", "P2"), ("p3", "P3"), ("p4", "P4"),
      ("p5", "P5"), ("p6", "P6"), ("p7", "P7"), ("p8", "P8"), ("p9", "P9")]
    created_at := 0
    last_activity := 0
    call_ended := false }

/-- A registry with one full room under id `f`. -/
def regFull : Registry := [("f", roomFull)]

/-- Witness for C3: joining `reg1` succeeds with count 2; joining the full
room of `regFull` fails with `Room is full` and leaves the state alone. -/
theorem C3_request_join_witness :
    ((request_join reg1 "r" "Bob" "b" 7).1 = (some "b", some "r", "Joined room " ++ "r") ∧
      ∃ room', dictLookup "r" (request_join reg1 "r" "Bob" "b" 7).2 = some room' ∧
        room'.participants = roomAlice.participants ++ ["b"] ∧
        dictLookup "b" room'.user_names = some "Bob" ∧
        room'.last_activity = 7 ∧
        room'.participants.length = roomAlice.participants.length + 1) ∧
    (request_join regFull "f" "Kate" "k" 7).1 = (none, none, "Room is full") ∧
    (request_join regFull "f" "Kate" "k" 7).2 = regFull := by
  have h1 := (C3_request_join_capacity reg1 "r" "Bob" "b" 7 roomAlice
    (by decide) (by decide)).1 (by decide)
  have h2 := (C3_request_join_capacity regFull "f" "Kate" "k" 7 roomFull
    (by decide) (by decide)).2 (by decide)
  exact ⟨h1, h2.1, h2.2.1⟩

lemma end_call_of_none {st : Registry} {rid : String}
    (h : dictLookup rid st = none) : end_call_permanently st rid = st := by
  simp only [end_call_permanently, h]

lemma end_call_of_some {st : Registry} {rid : String} {room : Room}
    (h : dictLookup rid st = some room) :
    end_call_permanently st rid = dictInsert rid { room with call_ended := true } st := by
  simp only [end_call_permanently, h]

lemma end_call_lookup {st : Registry} {rid : String} {room : Room}
    (h : dictLookup rid st = some room) :
    dictLookup rid (end_call_permanently st rid) = some { room with call_ended := true } := by
  rw [end_call_of_some h, dictLookup_dictInsert, if_pos rfl]

lemma end_call_idem (st : Registry) (rid : String) :
    end_call_permanently (end_call_permanently st rid) rid = end_call_permanently st rid := by
  cases hc : dictLookup rid st with
  | none => rw [end_call_of_none hc, end_call_of_none hc]
  | some room =>
    have h2 := end_call_lookup hc
    rw [end_call_of_some h2]
    exact dictInsert_lookup_self h2

/-- Applying `end_call_permanently` `n` times in a row on the same id. -/
def end_n_times (st : Registry) (rid : String) : Nat → Registry
  | 0 => st
  | n + 1 => end_call_permanently (end_n_times st rid n) rid

lemma end_n_times_succ (st : Registry) (rid : String) (m : Nat) :
    end_n_times st rid (m + 1) = end_call_permanently st rid := by
  induction m with
  | zero => rfl
  | succ k ih =>
    show end_call_permanently (end_n_times st rid (k + 1)) rid = _
    rw [ih, end_call_idem]

/-- C4: `end_call_permanently` is a no-op on a missing or already-ended
room and otherwise flips `call_ended` to true; it is idempotent, and after
it has been applied to an existing room any number `n ≥ 1` of times, every
`request_join` on that id answers `Call has ended permanently` (touching
nothing) and `can_start_call` answers false. -/
theorem C4_end_call_permanently (st : Registry) (rid : String) :
    (dictLookup rid st = none → end_call_permanently st rid = st) ∧
    (∀ room, dictLookup rid st = some room → room.call_ended = true →
      end_call_permanently st rid = st) ∧
    (∀ room, dictLookup rid st = some room →
      dictLookup rid (end_call_permanently st rid) = some { room with call_ended := true }) ∧
    end_call_permanently (end_call_permanently st rid) rid = end_call_permanently st rid ∧
    (∀ room, dictLookup rid st = some room → ∀ n, 1 ≤ n → ∀ uname uid now,
      (request_join (end_n_times st rid n) rid uname uid now).1 =
        (none, none, "Call has ended permanently") ∧
      (request_join (end_n_times st rid n) rid uname uid now).2 = end_n_times st rid n ∧
      can_start_call (end_n_times st rid n) rid = false) := by
  refine ⟨end_call_of_none, ?_, fun room h => end_call_lookup h, end_call_idem st rid, ?_⟩
  · intro room hl hend
    rw [end_call_of_some hl]
    have hroom : { room with call_ended := true } = room := by
      cases room
      simp only at hend
      rw [hend]
    rw [hroom]
    exact dictInsert_lookup_self hl
  · intro room hl n hn uname uid now
    cases n with
    | zero => omega
    | succ m =>
      rw [end_n_times_succ]
      have hl' := end_call_lookup hl
      constructor
      · simp only [request_join, hl']
        rw [if_pos trivial]
      constructor
      · simp only [request_join, hl']
        rw [if_pos trivial]
      · simp only [can_start_call, hl']
        rfl

/-- Witness for C4 on the one-room registry `reg1`. -/
theorem C4_end_call_witness :
    dictLookup "r" (end_call_permanently reg1 "r") =
      some { roomAlice with call_ended := true } ∧
    end_call_permanently (end_call_permanently reg1 "r") "r" =
      end_call_permanently reg1 "r" ∧
    (request_join (end_n_times reg1 "r" 2) "r" "Carol" "c" 9).1 =
      (none, none, "Call has ended permanently") ∧
    can_start_call (end_n_times reg1 "r" 2) "r" = false := by
  have h := C4_end_call_permanently reg1 "r"
  have h5 := h.2.2.2.2 roomAlice (by decide) 2 (by decide) "Carol" "c" 9
  exact ⟨h.2.2.1 roomAlice (by decide), h.2.2.2.1, h5.1, h5.2.2⟩

/-- C8: for every non-empty display name (and a non-empty generated room
id, as `token_urlsafe(16)` always yields), `create_room` returns the
confirmation triple embedding the room id and stores a fresh room whose
sole participant is the caller, who is also the creator, with both
timestamps equal to `now` and `call_ended` false; immediately afterwards
`can_start_call` answers true and `get_status` reports exactly 1
participant. -/
theorem C8_create_room_fresh (st : Registry) (uname rid uid : String) (now : Int)
    (_hname : uname ≠ "") (hrid : rid ≠ "") :
    (create_room st uname rid uid now).1 =
      (rid, uid, "Room created! Share this ID: " ++ rid) ∧
    dictLookup rid (create_room st uname rid uid now).2 =
      some { creator := uid, participants := [uid], pending_approvals := [],
             user_names := [(uid, uname)], created_at := now, last_activity := now,
             call_ended := false } ∧
    can_start_call (create_room st uname rid uid now).2 rid = true ∧
    (∀ room, dictLookup rid (create_room st uname rid uid now).2 = some room →
      room.participants.length = 1) ∧
    (get_status (create_room st uname rid uid now).2 rid).1 =
      "🟢 Room Active | 👥 Participants: 1\n📋 Participants: " ++ uname := by
  have hl : dictLookup rid (create_room st uname rid uid now).2 =
      some { creator := uid, participants := [uid], pending_approvals := [],
             user_names := [(uid, uname)], created_at := now, last_activity := now,
             call_ended := false } := by
    simp only [create_room]
    rw [dictLookup_dictInsert, if_pos rfl]
  refine ⟨rfl, hl, ?_, ?_, ?_⟩
  · simp only [can_start_call, hl]
    rfl
  · intro room h
    obtain rfl := dictLookup_inj hl h
    rfl
  · simp only [get_status, if_neg hrid, hl, List.length_singleton]
    rfl

/-- Witness for C8 at name `Alice`, room id `r`, user id `u`, time 0. -/
theorem C8_create_room_witness :
    (create_room [] "Alice" "r" "u" 0).1 = ("r", "u", "Room created! Share this ID: " ++ "r") ∧
    dictLookup "r" (create_room [] "Alice" "r" "u" 0).2 = some roomAlice ∧
    can_start_call (create_room [] "Alice" "r" "u" 0).2 "r" = true ∧
    (get_status (create_room [] "Alice" "r" "u" 0).2 "r").1 =
      "🟢 Room Active | 👥 Participants: 1\n📋 Participants: " ++ "Alice" := by
  have h := C8_create_room_fresh [] "Alice" "r" "u" 0 (by decide) (by decide)
  exact ⟨h.1, h.2.1, h.2.2.1, h.2.2.2.2⟩

/-- C9: `get_status` never mutates the registry: the table it leaves behind
is the one it was given, whatever the id and state. -/
theorem C9_get_status_read_only (st : Registry) (rid : String) :
    (get_status st rid).2 = st :=
  get_status_snd st rid

/-- C10: every failing `request_join` — unknown id, ended room, or full
room — returns `none` for both identifiers with the matching status
message and leaves the registry exactly unchanged. -/
theorem C10_request_join_failure_frame (st : Registry) (rid uname uid : String) (now : Int) :
    (dictLookup rid st = none →
      request_join st rid uname uid now = ((none, none, "Room not found or expired"), st)) ∧
    (∀ room, dictLookup rid st = some room → room.call_ended = true →
      request_join st rid uname uid now = ((none, none, "Call has ended permanently"), st)) ∧
    (∀ room, dictLookup rid st = some room → room.call_ended = false →
      10 ≤ room.participants.length →
      request_join st rid uname uid now = ((none, none, "Room is full"), st)) := by
  refine ⟨?_, ?_, ?_⟩
  · intro h
    simp only [request_join, h]
  · intro room hl hend
    simp only [request_join, hl]
    rw [if_pos hend]
  · intro room hl hend hfull
    simp only [request_join, hl]
    rw [if_neg (by simp [hend]), if_pos hfull]

/-- Witness for C10: unknown id on `reg1`, ended room, and full room. -/
theorem C10_request_join_failure_witness :
    request_join reg1 "zzz" "Bob" "b" 7 = ((none, none, "Room not found or expired"), reg1) ∧
    request_join (end_call_permanently reg1 "r") "r" "Bob" "b" 7 =
      ((none, none, "Call has ended permanently"), end_call_permanently reg1 "r") ∧
    request_join regFull "f" "Bob" "b" 7 = ((none, none, "Room is full"), regFull) := by
  have h1 := (C10_request_join_failure_frame reg1 "zzz" "Bob" "b" 7).1 (by decide)
  have h2 := (C10_request_join_failure_frame (end_call_permanently reg1 "r") "r" "Bob" "b" 7).2.1
    { roomAlice with call_ended := true } (by decide) (by decide)
  have h3 := (C10_request_join_failure_frame regFull "f" "Bob" "b" 7).2.2 roomFull
    (by decide) (by decide) (by decide)
  exact ⟨h1, h2, h3⟩

/-- C7: the media handlers always answer and never with `None`: the video
handler passes a present frame through when video is enabled and otherwise
answers the zero-filled 480×640×3 `uint8` frame; the audio handler passes
present samples through when audio is enabled and otherwise answers 1600
zero `int16` samples at rate 16000. -/
theorem C7_handlers_never_none (ve ae : Bool) (frame : Option NdArray3)
    (aud : Option (Nat × NdArray2)) :
    video_handler ve frame ≠ none ∧
    audio_handler ae aud ≠ none ∧
    (∀ f, frame = some f → ve = true → video_handler ve frame = some f) ∧
    (frame = none ∨ ve = false →
      video_handler ve frame = some (np_zeros3 480 640 3 "uint8")) ∧
    (∀ a, aud = some a → ae = true → audio_handler ae aud = some a) ∧
    (aud = none ∨ ae = false →
      audio_handler ae aud = some (16000, np_zeros2 1 1600 "int16")) := by
  refine ⟨?_, ?_, ?_, ?_, ?_, ?_⟩
  · cases frame with
    | none => simp [video_handler]
    | some f => cases ve <;> simp [video_handler]
  · cases aud with
    | none => simp [audio_handler]
    | some a => cases ae <;> simp [audio_handler]
  · rintro f rfl rfl
    simp [video_handler]
  · rintro (rfl | rfl)
    · rfl
    · cases frame <;> simp [video_handler]
  · rintro a rfl rfl
    simp [audio_handler]
  · rintro (rfl | rfl)
    · rfl
    · cases aud <;> simp [audio_handler]

/-- A small concrete frame for exercising the pass-through branch. -/
def frame1 : NdArray3 := np_zeros3 2 3 3 "uint8"

/-- Witness for C7: disabled video substitutes the blank frame, enabled
video passes the frame through, absent audio yields the silence block. -/
theorem C7_handlers_witness :
    video_handler true (some frame1) = some frame1 ∧
    video_handler false (some frame1) = some (np_zeros3 480 640 3 "uint8") ∧
    audio_handler true none = some (16000, np_zeros2 1 1600 "int16") := by
  have ht := C7_handlers_never_none true true (some frame1) none
  have hf := C7_handlers_never_none false true (some frame1) none
  exact ⟨ht.2.2.1 frame1 rfl rfl, hf.2.2.2.1 (Or.inr rfl), ht.2.2.2.2.2 (Or.inl rfl)⟩

/-- Counterexample to C1 as stated: the Registry's `create_room`, called
directly with the empty display name (empty after stripping), does not
fail — it returns the success triple and allocates a room. -/
theorem C1_counterexample :
    (create_room [] "" "r0" "u0" 0).1 = ("r0", "u0", "Room created! Share this ID: r0") ∧
    dictLookup "r0" (create_room [] "" "r0" "u0" 0).2 =
      some { creator := "u0", participants := ["u0"], pending_approvals := [],
             user_names := [("u0", "")], created_at := 0, last_activity := 0,
             call_ended := false } ∧
    pyStrip "" = "" := by
  refine ⟨rfl, ?_, rfl⟩
  decide

/-- C1 amended: the empty-name rejection lives only in the presentation
layer — `create_room_interface` answers `Please enter your name` and leaves
the registry untouched whenever the stripped name is empty — while the
Registry's `create_room` itself performs no validation and allocates a room
even for an empty name. -/
theorem C1_empty_name_rejected_in_interface (st : Registry) (uname rid uid : String)
    (now : Int) (h : pyStrip uname = "") :
    create_room_interface st uname rid uid now = ((none, none, "Please enter your name"), st) ∧
    (create_room st uname rid uid now).1 =
      (rid, uid, "Room created! Share this ID: " ++ rid) ∧
    dictLookup rid (create_room st uname rid uid now).2 =
      some { creator := uid, participants := [uid], pending_approvals := [],
             user_names := [(uid, uname)], created_at := now, last_activity := now,
             call_ended := false } := by
  refine ⟨?_, rfl, ?_⟩
  · simp only [create_room_interface, h]
    rw [if_pos trivial]
  · simp only [create_room]
    rw [dictLookup_dictInsert, if_pos rfl]

/-- Witness for the amended C1, at the whitespace-only name. -/
theorem C1_empty_name_witness :
    create_room_interface [] "   " "r0" "u0" 0 =
      ((none, none, "Please enter your name"), []) ∧
    dictLookup "r0" (create_room [] "   " "r0" "u0" 0).2 =
      some { creator := "u0", participants := ["u0"], pending_approvals := [],
             user_names := [("u0", "   ")], created_at := 0, last_activity := 0,
             call_ended := false } := by
  have h := C1_empty_name_rejected_in_interface [] "   " "r0" "u0" 0 (by decide)
  exact ⟨h.1, h.2.2⟩

end PrivacyCalls
